import Mathlib

/-!
Verification of the yaynay-agent suggestion lifecycle, duplicate-prevention and
allocation pipeline.

The TypeScript sources are shallowly embedded as pure Lean functions:

* JS `number` values are modelled as rationals (`ℚ`); `BigInt` as `ℤ`; the
  claims under study do not depend on binary floating-point rounding.
* ISO timestamp strings that are only ever produced by `Date.toISOString` and
  consumed by `Date.getTime` are modelled by their epoch-millisecond value
  (the round trip is the identity at millisecond precision).
* File persistence (`loadQueue`/`saveQueue`) is modelled by explicit state
  passing of the `SuggestionsQueue` value; a JS `throw` is an `Except.error`.
* External I/O (subgraph fetch, balance query, proposal submission, AI call)
  is modelled by explicit outcome parameters.
-/

namespace YayNay

/-- Lifecycle status of a queued suggestion (`suggestionsQueue.ts`, field
`QueuedSuggestion.status`). -/
inductive Status where
  | pending
  | processing
  | completed
  | failed
deriving DecidableEq, Repr

/-- Provenance of a suggestion (`suggestionsQueue.ts`, field `source`). -/
inductive Source where
  | manual
  | agent
deriving DecidableEq, Repr

/-- A queued suggestion record (`suggestionsQueue.ts`, type `QueuedSuggestion`).
Optional TS fields are `Option`; JS numbers are rationals. -/
structure QueuedSuggestion where
  id : String
  coinId : String
  coinSymbol : Option String := none
  coinName : Option String := none
  creatorAddress : Option String := none
  creatorName : Option String := none
  pfpUrl : Option String := none
  currentPriceUsd : Option ℚ := none
  volume24hUsd : Option ℚ := none
  reason : String
  confidenceScore : ℚ
  suggestedAllocationUsd : Option ℚ := none
  source : Source
  submittedBy : Option String := none
  addedAt : String
  status : Status
  processedAt : Option String := none
  proposalId : Option String := none
  txHash : Option String := none
  errorMessage : Option String := none
deriving DecidableEq, Repr

/-- The persisted queue document (`suggestionsQueue.ts`, type `SuggestionsQueue`). -/
structure SuggestionsQueue where
  suggestions : List QueuedSuggestion
  lastUpdated : String
deriving DecidableEq, Repr

/-- The input of `addSuggestionToQueue` (`Omit<QueuedSuggestion, 'id' | 'addedAt' | 'status'>`). -/
structure NewSuggestionInput where
  coinId : String
  coinSymbol : Option String := none
  coinName : Option String := none
  creatorAddress : Option String := none
  creatorName : Option String := none
  pfpUrl : Option String := none
  currentPriceUsd : Option ℚ := none
  volume24hUsd : Option ℚ := none
  reason : String
  confidenceScore : ℚ
  suggestedAllocationUsd : Option ℚ := none
  source : Source
  submittedBy : Option String := none
deriving DecidableEq, Repr

/-- The id generated at insertion time (`suggestionsQueue.ts` line 112):
`suggestion_${Date.now()}_${Math.random().toString(36).substring(7)}`.
`Date.now()` is the `timeMs` parameter and the random base-36 suffix is the
`rand` parameter. -/
def mkSuggestionId (timeMs : ℕ) (rand : String) : String :=
  "suggestion_" ++ Nat.repr timeMs ++ "_" ++ rand

/-- `addSuggestionToQueue` (`suggestionsQueue.ts` lines 107-126): assigns a fresh
id and timestamp, sets status `pending`, appends and persists (persistence is
the returned queue; `saveQueue` also overwrites `lastUpdated`). -/
def addSuggestionToQueue (q : SuggestionsQueue) (input : NewSuggestionInput)
    (timeMs : ℕ) (rand : String) (nowIso : String) :
    QueuedSuggestion × SuggestionsQueue :=
  let newSuggestion : QueuedSuggestion :=
    { id := mkSuggestionId timeMs rand
      coinId := input.coinId
      coinSymbol := input.coinSymbol
      coinName := input.coinName
      creatorAddress := input.creatorAddress
      creatorName := input.creatorName
      pfpUrl := input.pfpUrl
      currentPriceUsd := input.currentPriceUsd
      volume24hUsd := input.volume24hUsd
      reason := input.reason
      confidenceScore := input.confidenceScore
      suggestedAllocationUsd := input.suggestedAllocationUsd
      source := input.source
      submittedBy := input.submittedBy
      addedAt := nowIso
      status := Status.pending }
  (newSuggestion,
   { suggestions := q.suggestions ++ [newSuggestion], lastUpdated := nowIso })

/-- `getPendingSuggestions` (`suggestionsQueue.ts` lines 131-134). -/
def getPendingSuggestions (q : SuggestionsQueue) : List QueuedSuggestion :=
  q.suggestions.filter (fun s => s.status == Status.pending)

/-- `getNextSuggestion` (`suggestionsQueue.ts` lines 139-142): the first pending
record in stored order, or none. -/
def getNextSuggestion (q : SuggestionsQueue) : Option QueuedSuggestion :=
  (getPendingSuggestions q).head?

/-- Optional metadata accepted by `updateSuggestionStatus`. -/
structure UpdateMetadata where
  proposalId : Option String := none
  txHash : Option String := none
  errorMessage : Option String := none
deriving DecidableEq, Repr

/-- JS truthiness of an optional string: `undefined`, `null` and the empty
string are falsy. -/
def jsTruthyStr : Option String → Bool
  | none => false
  | some s => !(s == "")

/-- JS `String.prototype.toLowerCase`, modelled as a character-wise ASCII
lowering (the strings it is applied to are hex addresses, where this coincides
with the JS function). -/
def jsToLowerCase (s : String) : String :=
  String.mk (s.data.map Char.toLower)

/-- The in-place mutation `updateSuggestionStatus` performs on the found record
(`suggestionsQueue.ts` lines 163-179): set the status; a transition into
`completed` or `failed` stamps `processedAt` with the current time; metadata
fields are copied only when truthy. -/
def applyUpdate (status : Status) (md : UpdateMetadata) (nowIso : String)
    (s : QueuedSuggestion) : QueuedSuggestion :=
  { s with
    status := status
    processedAt :=
      if status = Status.completed ∨ status = Status.failed then some nowIso
      else s.processedAt
    proposalId := if jsTruthyStr md.proposalId then md.proposalId else s.proposalId
    txHash := if jsTruthyStr md.txHash then md.txHash else s.txHash
    errorMessage :=
      if jsTruthyStr md.errorMessage then md.errorMessage else s.errorMessage }

/-- Replace the first element satisfying `p` by its image under `f` (the JS
`Array.find` followed by in-place mutation of the found object). -/
def updateFirst (p : α → Bool) (f : α → α) : List α → List α
  | [] => []
  | x :: xs => if p x then f x :: xs else x :: updateFirst p f xs

/-- `updateSuggestionStatus` (`suggestionsQueue.ts` lines 147-184): throws
`Suggestion not found: ...` when the id is absent (the queue file is then left
unchanged, since the throw precedes the mutation and the save); otherwise
mutates the found record and persists. -/
def updateSuggestionStatus (q : SuggestionsQueue) (id : String) (status : Status)
    (md : UpdateMetadata) (nowIso : String) : Except String SuggestionsQueue :=
  match q.suggestions.find? (fun s => s.id == id) with
  | none => Except.error ("Suggestion not found: " ++ id)
  | some _ =>
    Except.ok
      { suggestions := updateFirst (fun s => s.id == id) (applyUpdate status md nowIso) q.suggestions
        lastUpdated := nowIso }

/-- The persisted queue after a call to `updateSuggestionStatus`: on a throw the
file is untouched. -/
def updateSuggestionStatusPersisted (q : SuggestionsQueue) (id : String)
    (status : Status) (md : UpdateMetadata) (nowIso : String) : SuggestionsQueue :=
  match updateSuggestionStatus q id status md nowIso with
  | Except.ok q2 => q2
  | Except.error _ => q

/-- `getAllSuggestions` (`suggestionsQueue.ts` lines 189-192). -/
def getAllSuggestions (q : SuggestionsQueue) : List QueuedSuggestion :=
  q.suggestions

/-- `deleteSuggestion` (`suggestionsQueue.ts` lines 248-262): filters the id out
and persists only when something was removed; returns whether removal occurred. -/
def deleteSuggestion (q : SuggestionsQueue) (id : String) (nowIso : String) :
    Bool × SuggestionsQueue :=
  let rest := q.suggestions.filter (fun s => s.id != id)
  if rest.length < q.suggestions.length then
    (true, { suggestions := rest, lastUpdated := nowIso })
  else
    (false, q)

/-- `isCoinInQueue` (`suggestionsQueue.ts` lines 267-271): case-insensitive
address match against pending records only. -/
def isCoinInQueue (q : SuggestionsQueue) (coinAddress : String) : Bool :=
  (getPendingSuggestions q).any
    (fun s => jsToLowerCase s.coinId == jsToLowerCase coinAddress)

/-- Outcome of the external proposal build/submission performed inside the `try`
block of `processQueuedSuggestion` (`agent.ts` lines 97-151): either the
Governor submission succeeds, or some step throws with an error message. -/
inductive SubmissionOutcome where
  | success (txHash : String) (proposalId : Option String)
  | failure (errorMessage : String)
deriving DecidableEq, Repr

/-- Result of one `processQueuedSuggestion` run: the persisted queue afterwards
and the exception that propagated, if any. -/
structure ProcessResult where
  queue : SuggestionsQueue
  thrown : Option String
deriving DecidableEq, Repr

/-- `processQueuedSuggestion` (`agent.ts` lines 84-163), restricted to its queue
effects: mark `processing`; on submission success delete the record outright
(no `completed` status is ever stored); on any exception the `catch` block
marks the record `failed` with the error message and rethrows. If the initial
update throws (unknown id), the `catch` block's own update throws again and
that error propagates with the file unchanged. -/
def processQueuedSuggestion (q : SuggestionsQueue) (sugId : String)
    (outcome : SubmissionOutcome) (nowIso : String) : ProcessResult :=
  match updateSuggestionStatus q sugId Status.processing {} nowIso with
  | Except.error e =>
    match updateSuggestionStatus q sugId Status.failed { errorMessage := some e } nowIso with
    | Except.error e2 => { queue := q, thrown := some e2 }
    | Except.ok q2 => { queue := q2, thrown := some e }
  | Except.ok q1 =>
    match outcome with
    | SubmissionOutcome.success _ _ =>
      { queue := (deleteSuggestion q1 sugId nowIso).2, thrown := none }
    | SubmissionOutcome.failure msg =>
      match updateSuggestionStatus q1 sugId Status.failed { errorMessage := some msg } nowIso with
      | Except.error e2 => { queue := q1, thrown := some e2 }
      | Except.ok q2 => { queue := q2, thrown := some msg }

/-! Allocation calculator (`calculateAllocation.ts`). -/

/-- Minimum allocation safety bound (`calculateAllocation.ts` line 164): 0.0001 ETH. -/
def minAllocation : ℚ := 1 / 10000

/-- Maximum allocation safety bound (`calculateAllocation.ts` line 165): 0.1 ETH. -/
def maxAllocation : ℚ := 1 / 10

/-- The hardcoded fallback returned on the degraded paths
(`calculateAllocation.ts` lines 141 and 175): 0.01 ETH. -/
def defaultAllocation : ℚ := 1 / 100

/-- JS `Number.prototype.toFixed(4)`, modelled on rationals: round to 4 decimal
places (the returned decimal string is modelled by its numeric value). -/
def toFixed4 (x : ℚ) : ℚ := ((round (x * 10000) : ℤ) : ℚ) / 10000

/-- `calculateProposalAllocation` (`calculateAllocation.ts` lines 134-177),
with its external reads made explicit: `treasuryAddress` is the (falsy-checked)
environment variable, `balanceResult` the treasury balance query in wei (which
may throw), and `activeProposalValue` the result of
`getTotalActiveProposalValue` (which never throws: it catches internally and
contributes 0 on failure). `BigInt(allocationPercent * 100)` throws a caught
`RangeError` when `allocationPercent * 100` is not an integer, landing on the
default; BigInt division truncates toward zero (`Int.tdiv`). The returned
decimal string is modelled by its numeric value. -/
def calculateProposalAllocation (treasuryAddress : Option String)
    (balanceResult : Except String ℤ) (activeProposalValue : ℤ)
    (allocationPercent : ℚ) : ℚ :=
  match treasuryAddress with
  | none => defaultAllocation
  | some _ =>
    match balanceResult with
    | Except.error _ => defaultAllocation
    | Except.ok treasuryBalance =>
      if (allocationPercent * 100).den = 1 then
        let availableFunds : ℤ := treasuryBalance - activeProposalValue
        let allocationWei : ℤ :=
          Int.tdiv (availableFunds * (allocationPercent * 100).num) 10000
        let allocationEth : ℚ := (allocationWei : ℚ) / 10 ^ 18
        toFixed4 (max minAllocation (min maxAllocation allocationEth))
      else
        defaultAllocation

/-! Proposal history oracle (`proposalHistory.ts`). -/

/-- Duplicate-prevention window (`proposalHistory.ts` line 50): 24 hours in ms. -/
def DUPLICATE_PREVENTION_WINDOW_MS : ℤ := 24 * 60 * 60 * 1000

/-- A proposal as returned by the subgraph (`proposalHistory.ts`, type
`SubgraphProposal`); `timeCreated` is in seconds (the code applies
`parseInt(...)` to the subgraph string). -/
structure SubgraphProposal where
  proposalId : String
  proposalNumber : ℤ
  description : Option String
  title : String
  timeCreated : ℤ
  transactionHash : String
  snapshotBlockNumber : ℤ
deriving DecidableEq, Repr

/-- A reconstructed history entry (`proposalHistory.ts`, type
`ProposalHistoryEntry`); the ISO `submittedAt` string is modelled by its
millisecond value `submittedAtMs`. -/
structure ProposalHistoryEntry where
  coinAddress : String
  coinSymbol : Option String
  coinName : Option String
  proposalId : String
  submittedAtMs : ℤ
  txHash : Option String
  blockNumber : ℤ
deriving DecidableEq, Repr

/-- Hex-digit class of the regex character class `[a-fA-F0-9]`. -/
def isHexDigitChar (c : Char) : Bool :=
  c.isDigit || ('a' ≤ c && c ≤ 'f') || ('A' ≤ c && c ≤ 'F')

/-- Whitespace class of the regex `\s` (the characters that occur in proposal
descriptions; the exotic Unicode members of JS `\s` are not modelled). -/
def jsWhitespace (c : Char) : Bool :=
  c == ' ' || c == '\t' || c == '\n' || c == '\r'

/-- Take exactly `n` hex digits, failing otherwise (the regex `[a-fA-F0-9]{40}`). -/
def takeHex : ℕ → List Char → Option (List Char)
  | 0, _ => some []
  | _ + 1, [] => none
  | n + 1, c :: cs =>
    if isHexDigitChar c then (takeHex n cs).map (fun hex => c :: hex) else none

/-- Match `\s*(0x[a-fA-F0-9]{40})` at the head of the input, returning the
captured address. Greedy `\s*` needs no backtracking here because `0` is not a
whitespace character. -/
def matchAddressAt (cs : List Char) : Option String :=
  match cs.dropWhile jsWhitespace with
  | '0' :: 'x' :: rest => (takeHex 40 rest).map (fun hex => String.mk ('0' :: 'x' :: hex))
  | _ => none

/-- Case handling for the label characters: the third pattern in
`extractCoinAddressFromDescription` carries the `i` flag. -/
def charMatches (ci : Bool) (a b : Char) : Bool :=
  if ci then a.toLower == b.toLower else a == b

/-- Match a literal label at the head of the input, returning the remainder. -/
def matchLabelAt (ci : Bool) : List Char → List Char → Option (List Char)
  | [], cs => some cs
  | _ :: _, [] => none
  | l :: ls, c :: cs => if charMatches ci l c then matchLabelAt ci ls cs else none

/-- Scan for the first position where `label` followed by `\s*0x[hex]{40}`
matches (the semantics of `description.match(/label\s*(0x[a-fA-F0-9]{40})/)`). -/
def scanForPattern (ci : Bool) (label : List Char) : List Char → Option String
  | [] => none
  | c :: rest =>
    match matchLabelAt ci label (c :: rest) with
    | some after =>
      match matchAddressAt after with
      | some a => some a
      | none => scanForPattern ci label rest
    | none => scanForPattern ci label rest

/-- `extractCoinAddressFromDescription` (`proposalHistory.ts` lines 75-95): try
`Address:`, then `Coin ID:`, then case-insensitive `coin:`; a falsy description
yields null (scanning the empty string finds nothing, so the guard is implied). -/
def extractCoinAddressFromDescription (description : Option String) : Option String :=
  match description with
  | none => none
  | some s =>
    match scanForPattern false "Address:".toList s.toList with
    | some a => some a
    | none =>
      match scanForPattern false "Coin ID:".toList s.toList with
      | some a => some a
      | none => scanForPattern true "coin:".toList s.toList

/-- Scan for `label\s*([^\n]+)` and return the raw capture (the common-case
regex semantics: backtracking of a greedy `\s*` into the capture, which only
matters when the label is followed by whitespace alone up to the line end, is
not modelled). -/
def scanForLine (label : List Char) : List Char → Option String
  | [] => none
  | c :: rest =>
    match matchLabelAt false label (c :: rest) with
    | some after =>
      let body := (after.dropWhile jsWhitespace).takeWhile (fun ch => ch ≠ '\n')
      if body.isEmpty then scanForLine label rest else some (String.mk body)
    | none => scanForLine label rest

/-- `extractCoinSymbolFromDescription` (`proposalHistory.ts` lines 100-106):
the raw capture is compared against `N/A` before trimming. -/
def extractCoinSymbolFromDescription (description : Option String) : Option String :=
  match description with
  | none => none
  | some s =>
    match scanForLine "Symbol:".toList s.toList with
    | some captured =>
      if captured ≠ "" ∧ captured ≠ "N/A" then some captured.trim else none
    | none => none

/-- `extractCoinNameFromDescription` (`proposalHistory.ts` lines 111-117). -/
def extractCoinNameFromDescription (description : Option String) : Option String :=
  match description with
  | none => none
  | some s =>
    match scanForLine "Name:".toList s.toList with
    | some captured =>
      if captured ≠ "" ∧ captured ≠ "N/A" then some captured.trim else none
    | none => none

/-- Outcome of the subgraph POST in `getRecentProposals` (`proposalHistory.ts`
lines 167-186): the fetch may throw, return a non-ok HTTP status, report
GraphQL errors, or deliver a proposal list (a missing `data.proposals` is the
empty list). -/
inductive FetchOutcome where
  | networkError
  | httpError (status : ℕ) (statusText : String)
  | graphqlErrors (errs : String)
  | ok (proposals : List SubgraphProposal)
deriving DecidableEq, Repr

/-- Whether the fetch outcome is one of the three error cases that the `catch`
block of `getRecentProposals` turns into an empty result. -/
def FetchOutcome.isErr : FetchOutcome → Bool
  | FetchOutcome.ok _ => false
  | _ => true

/-- The scan loop of `getRecentProposals` (`proposalHistory.ts` lines 195-222):
proposals arrive newest-first; the loop breaks at the first entry older than
the cutoff and skips entries without an extractable coin address. -/
def processProposals (cutoffTime : ℤ) : List SubgraphProposal → List ProposalHistoryEntry
  | [] => []
  | p :: rest =>
    let timeCreatedMs := p.timeCreated * 1000
    if timeCreatedMs < cutoffTime then
      []
    else
      match extractCoinAddressFromDescription p.description with
      | none => processProposals cutoffTime rest
      | some addr =>
        { coinAddress := addr
          coinSymbol := extractCoinSymbolFromDescription p.description
          coinName := extractCoinNameFromDescription p.description
          proposalId := p.proposalId
          submittedAtMs := timeCreatedMs
          txHash := some p.transactionHash
          blockNumber := p.snapshotBlockNumber } :: processProposals cutoffTime rest

/-- `getRecentProposals` (`proposalHistory.ts` lines 129-232): on any fetch
error the `catch` block returns the empty list rather than propagating. -/
def getRecentProposals (outcome : FetchOutcome) (nowMs : ℤ) (windowMs : ℤ) :
    List ProposalHistoryEntry :=
  match outcome with
  | FetchOutcome.ok allProposals => processProposals (nowMs - windowMs) allProposals
  | _ => []

/-- The query variable `first: 100` (`proposalHistory.ts` line 164). -/
def subgraphFirst : ℕ := 100

/-- Modelled from the spec (external interface, spec section 6): the proposal
index returns proposals ordered newest-first and delivers at most `first`
entries, so the list the code receives is the `subgraphFirst` newest entries of
the full index. -/
def fetchedProposals (fullIndex : List SubgraphProposal) : List SubgraphProposal :=
  fullIndex.take subgraphFirst

/-- `wasRecentlyProposed` (`proposalHistory.ts` lines 241-265): case-insensitive
first match against `getRecentProposals`. -/
def wasRecentlyProposed (outcome : FetchOutcome) (nowMs : ℤ) (coinAddress : String)
    (windowMs : ℤ) : Option ProposalHistoryEntry :=
  (getRecentProposals outcome nowMs windowMs).find?
    (fun p => jsToLowerCase p.coinAddress == jsToLowerCase coinAddress)

/-- JS `Number.prototype.toFixed(1)` modelled on rationals, used only inside
display strings. -/
def fixed1String (q : ℚ) : String :=
  let n : ℤ := round (q * 10)
  let sign := if n < 0 then "-" else ""
  sign ++ Nat.repr (n.natAbs / 10) ++ "." ++ Nat.repr (n.natAbs % 10)

/-- An entry of the `excluded` output of `filterRecentlyProposedCoins`. -/
structure ExcludedCoin where
  coinAddress : String
  reason : String
  proposalId : String
  hoursAgo : ℚ
deriving DecidableEq, Repr

/-- The `excluded` record built for a matched coin (`proposalHistory.ts` lines
306-315). -/
def mkExcluded (nowMs : ℤ) (coinAddress : String) (p : ProposalHistoryEntry) :
    ExcludedCoin :=
  let hoursAgo : ℚ := ((nowMs - p.submittedAtMs : ℤ) : ℚ) / 3600000
  { coinAddress := coinAddress
    reason := "Already proposed " ++ fixed1String hoursAgo ++ "h ago"
    proposalId := p.proposalId
    hoursAgo := hoursAgo }

/-- The partition loop of `filterRecentlyProposedCoins` (`proposalHistory.ts`
lines 300-319) against an already-fetched history. -/
def filterCoinsAgainst (proposals : List ProposalHistoryEntry) (nowMs : ℤ) :
    List String → List String × List ExcludedCoin
  | [] => ([], [])
  | a :: rest =>
    let res := filterCoinsAgainst proposals nowMs rest
    match proposals.find? (fun p => jsToLowerCase p.coinAddress == jsToLowerCase a) with
    | some p => (res.1, mkExcluded nowMs a p :: res.2)
    | none => (a :: res.1, res.2)

/-- `filterRecentlyProposedCoins` (`proposalHistory.ts` lines 276-322): one
shared history fetch, then the partition into allowed and excluded. -/
def filterRecentlyProposedCoins (outcome : FetchOutcome) (nowMs : ℤ)
    (coinAddresses : List String) (windowMs : ℤ) :
    List String × List ExcludedCoin :=
  filterCoinsAgainst (getRecentProposals outcome nowMs windowMs) nowMs coinAddresses

/-! Analysis gate (`analyzeCreator.ts`). -/

/-- The resolved creator profile (`resolveCreatorProfile` result, external). -/
structure CreatorProfile where
  address : String
  displayName : Option String
  pfpUrl : Option String
deriving DecidableEq, Repr

/-- The resolved coin (`getCoinInfo` result, external). -/
structure CoinInfo where
  address : String
  symbol : Option String
  name : Option String
  currentPriceUsd : Option ℚ
  volume24hUsd : Option ℚ
deriving DecidableEq, Repr

/-- `CoinAnalysis` (`analyzeCreator.ts` lines 38-52). -/
structure CoinAnalysis where
  username : String
  creatorAddress : String
  coinId : String
  symbol : Option String := none
  name : Option String := none
  creatorName : Option String := none
  pfpUrl : Option String := none
  currentPriceUsd : Option ℚ := none
  volume24hUsd : Option ℚ := none
  alreadyHeld : Bool
  reason : String
  confidenceScore : ℚ
  suggestedAllocationUsd : Option ℚ := none
deriving DecidableEq, Repr

/-- The `proposalSubmitted` field of `CoinAnalysisWithProposal`: the JS values
`false`, the string `pending`, and `true`. -/
inductive ProposalSubmitted where
  | notSubmitted
  | pendingInQueue
  | submitted
deriving DecidableEq, Repr

/-- `CoinAnalysisWithProposal` (`analyzeCreator.ts` lines 54-64); the `proposal`
field is never assigned by `analyzeAndPropose` and is omitted. -/
structure CoinAnalysisWithProposal where
  username : String
  creatorAddress : String
  coinId : String
  symbol : Option String := none
  name : Option String := none
  creatorName : Option String := none
  pfpUrl : Option String := none
  currentPriceUsd : Option ℚ := none
  volume24hUsd : Option ℚ := none
  alreadyHeld : Bool
  reason : String
  confidenceScore : ℚ
  suggestedAllocationUsd : Option ℚ := none
  proposalSubmitted : ProposalSubmitted
  recentProposal : Option ProposalHistoryEntry := none
deriving DecidableEq, Repr

/-- JS `a || b` on optional strings (empty strings are falsy). -/
def jsOrStr (a b : Option String) : Option String :=
  if jsTruthyStr a then a else if jsTruthyStr b then b else none

/-- The external interactions of one successful-resolution `analyzeAndPropose`
run: the resolved profile and coin, the subgraph fetch outcome consumed by
`wasRecentlyProposed`, `Date.now()`, the result the AI scoring capability
would return (as already clamped and validated by `getAIAnalysis`), and the
id-generation inputs and timestamp of a potential enqueue. -/
structure AnalyzeEnv where
  profile : CreatorProfile
  coin : CoinInfo
  fetch : FetchOutcome
  nowMs : ℤ
  aiAnalysis : CoinAnalysis
  queueTimeMs : ℕ
  queueRand : String
  nowIso : String
deriving DecidableEq, Repr

/-- `analyzeAndPropose` (`analyzeCreator.ts` lines 669-804), restricted to the
successful-resolution path. Returns the result, whether the external AI scoring
capability (`analyzeCreatorCoinByUsername`) was invoked, and the suggestions
queue afterwards. The duplicate check against `wasRecentlyProposed` runs before
the scoring step; on a hit the function short-circuits with confidence 0 and
touches neither the scoring capability nor the queue. -/
def analyzeAndPropose (username : String) (confidenceThreshold : ℚ)
    (env : AnalyzeEnv) (queue : SuggestionsQueue) :
    CoinAnalysisWithProposal × Bool × SuggestionsQueue :=
  let coinAddress := env.coin.address
  match wasRecentlyProposed env.fetch env.nowMs coinAddress DUPLICATE_PREVENTION_WINDOW_MS with
  | some recentProposal =>
    let hoursAgo : ℚ := ((env.nowMs - recentProposal.submittedAtMs : ℤ) : ℚ) / 3600000
    ({ username := username
       creatorAddress := env.profile.address
       coinId := coinAddress
       symbol := jsOrStr recentProposal.coinSymbol env.coin.symbol
       name := jsOrStr recentProposal.coinName env.coin.name
       creatorName := env.profile.displayName
       pfpUrl := env.profile.pfpUrl
       currentPriceUsd := env.coin.currentPriceUsd
       volume24hUsd := env.coin.volume24hUsd
       alreadyHeld := false
       reason := "Proposal already submitted " ++ fixed1String hoursAgo ++
         "h ago. Duplicate prevention active."
       confidenceScore := 0
       proposalSubmitted := ProposalSubmitted.notSubmitted
       recentProposal := some recentProposal },
     false, queue)
  | none =>
    let analysis := env.aiAnalysis
    if analysis.confidenceScore < confidenceThreshold then
      ({ username := analysis.username
         creatorAddress := analysis.creatorAddress
         coinId := analysis.coinId
         symbol := analysis.symbol
         name := analysis.name
         creatorName := analysis.creatorName
         pfpUrl := analysis.pfpUrl
         currentPriceUsd := analysis.currentPriceUsd
         volume24hUsd := analysis.volume24hUsd
         alreadyHeld := analysis.alreadyHeld
         reason := analysis.reason
         confidenceScore := analysis.confidenceScore
         suggestedAllocationUsd := analysis.suggestedAllocationUsd
         proposalSubmitted := ProposalSubmitted.notSubmitted },
       true, queue)
    else if isCoinInQueue queue analysis.coinId then
      ({ username := analysis.username
         creatorAddress := analysis.creatorAddress
         coinId := analysis.coinId
         symbol := analysis.symbol
         name := analysis.name
         creatorName := analysis.creatorName
         pfpUrl := analysis.pfpUrl
         currentPriceUsd := analysis.currentPriceUsd
         volume24hUsd := analysis.volume24hUsd
         alreadyHeld := analysis.alreadyHeld
         reason := "Suggestion not accepted: This coin is already in the queue awaiting processing."
         confidenceScore := analysis.confidenceScore
         suggestedAllocationUsd := analysis.suggestedAllocationUsd
         proposalSubmitted := ProposalSubmitted.notSubmitted },
       true, queue)
    else
      let input : NewSuggestionInput :=
        { coinId := analysis.coinId
          coinSymbol := analysis.symbol
          coinName := analysis.name
          creatorAddress := some analysis.creatorAddress
          creatorName := env.profile.displayName
          pfpUrl := env.profile.pfpUrl
          currentPriceUsd := analysis.currentPriceUsd
          volume24hUsd := analysis.volume24hUsd
          reason := analysis.reason
          confidenceScore := analysis.confidenceScore
          suggestedAllocationUsd := analysis.suggestedAllocationUsd
          source := Source.manual
          submittedBy := some username }
      let enq := addSuggestionToQueue queue input env.queueTimeMs env.queueRand env.nowIso
      ({ username := analysis.username
         creatorAddress := analysis.creatorAddress
         coinId := analysis.coinId
         symbol := analysis.symbol
         name := analysis.name
         creatorName := analysis.creatorName
         pfpUrl := analysis.pfpUrl
         currentPriceUsd := analysis.currentPriceUsd
         volume24hUsd := analysis.volume24hUsd
         alreadyHeld := analysis.alreadyHeld
         reason := analysis.reason
         confidenceScore := analysis.confidenceScore
         suggestedAllocationUsd := analysis.suggestedAllocationUsd
         proposalSubmitted := ProposalSubmitted.pendingInQueue },
       true, enq.2)

/-! Building a queue from a sequence of enqueue operations, for the store-wide
id-uniqueness and FIFO properties. -/

/-- One enqueue call together with the environment values it observes. -/
structure EnqueueOp where
  input : NewSuggestionInput
  timeMs : ℕ
  rand : String
  nowIso : String
deriving DecidableEq, Repr

/-- Run a sequence of `addSuggestionToQueue` calls. -/
def enqueueAll : SuggestionsQueue → List EnqueueOp → SuggestionsQueue
  | q, [] => q
  | q, op :: ops =>
    enqueueAll (addSuggestionToQueue q op.input op.timeMs op.rand op.nowIso).2 ops

/-- Decimal value of a digit string, used to invert `Nat.repr`. -/
def charVal (c : Char) : ℕ := c.toNat - 48

/-- Value of a list of decimal digit characters. -/
def digitsVal (l : List Char) : ℕ :=
  l.foldl (fun a c => 10 * a + charVal c) 0

/-! Concrete inputs used by the witnesses and counterexamples. -/

/-- A concrete suggestion record. -/
def exSuggestion : QueuedSuggestion :=
  { id := "s1"
    coinId := "0xC0"
    reason := "looks good"
    confidenceScore := 3 / 4
    source := Source.manual
    addedAt := "T0"
    status := Status.pending }

/-- A concrete one-element queue. -/
def exQueue : SuggestionsQueue :=
  { suggestions := [exSuggestion], lastUpdated := "T0" }

/-- The empty queue an absent or corrupt store file degrades to. -/
def emptyQueue : SuggestionsQueue :=
  { suggestions := [], lastUpdated := "T0" }

/-- A concrete enqueue input. -/
def exInput : NewSuggestionInput :=
  { coinId := "0xC1"
    reason := "r"
    confidenceScore := 1 / 2
    source := Source.agent }

/-- A 42-character coin address appearing in the concrete proposal description. -/
def exAddr : String := "0xaaaaaaaaaaaaaaaaaaaaaaaaaaaaaaaaaaaaaaaa"

/-- A concrete subgraph proposal whose description carries an extractable coin
address. -/
def exProposal : SubgraphProposal :=
  { proposalId := "prop-1"
    proposalNumber := 7
    description := some ("Buy the coin.\nAddress: " ++ exAddr ++ "\nAmount: 0.01 ETH")
    title := "Buy coin"
    timeCreated := 0
    transactionHash := "0xtx"
    snapshotBlockNumber := 5 }

/-- The history entry `getRecentProposals` derives from `exProposal`. -/
def exEntry : ProposalHistoryEntry :=
  { coinAddress := exAddr
    coinSymbol := none
    coinName := none
    proposalId := "prop-1"
    submittedAtMs := 0
    txHash := some "0xtx"
    blockNumber := 5 }

/-- A concrete environment for `analyzeAndPropose` in which the duplicate check
fires: the fetch returns `exProposal`, submitted two hours before `nowMs`. -/
def exEnv : AnalyzeEnv :=
  { profile := { address := "0xcreator", displayName := some "Creator", pfpUrl := none }
    coin := { address := exAddr, symbol := some "EX", name := some "Example"
              currentPriceUsd := some 1, volume24hUsd := some 100 }
    fetch := FetchOutcome.ok [exProposal]
    nowMs := 7200000
    aiAnalysis :=
      { username := "creator"
        creatorAddress := "0xcreator"
        coinId := exAddr
        alreadyHeld := false
        reason := "ai"
        confidenceScore := 1 / 2 }
    queueTimeMs := 9
    queueRand := "abc"
    nowIso := "T9" }

/-- A proposal without an extractable address, used to pad the concrete index
for the 100-proposal-limit witness. -/
def padProposal : SubgraphProposal :=
  { proposalId := "pad"
    proposalNumber := 1
    description := none
    title := "pad"
    timeCreated := 0
    transactionHash := "0xp"
    snapshotBlockNumber := 1 }

/-- A concrete index of 101 proposals: 100 pad entries followed by `exProposal`,
which is therefore beyond the `first: 100` horizon. -/
def exIndex : List SubgraphProposal :=
  List.replicate 100 padProposal ++ [exProposal]

/-- Two concrete enqueue operations with distinct timestamps. -/
def exOps : List EnqueueOp :=
  [{ input := exInput, timeMs := 5, rand := "ab", nowIso := "T0" },
   { input := exInput, timeMs := 6, rand := "ab", nowIso := "T1" }]

/-! Helper lemmas about the queue operations. -/

theorem applyUpdate_id (st : Status) (md : UpdateMetadata) (now : String)
    (s : QueuedSuggestion) : (applyUpdate st md now s).id = s.id := rfl

theorem applyUpdate_status (st : Status) (md : UpdateMetadata) (now : String)
    (s : QueuedSuggestion) : (applyUpdate st md now s).status = st := rfl

theorem applyUpdate_processedAt_terminal (st : Status) (md : UpdateMetadata)
    (now : String) (s : QueuedSuggestion)
    (h : st = Status.completed ∨ st = Status.failed) :
    (applyUpdate st md now s).processedAt = some now := by
  simp [applyUpdate, h]

theorem applyUpdate_errorMessage_of_truthy (st : Status) (md : UpdateMetadata)
    (now : String) (s : QueuedSuggestion) (h : jsTruthyStr md.errorMessage = true) :
    (applyUpdate st md now s).errorMessage = md.errorMessage := by
  simp [applyUpdate, h]

theorem updateFirst_map (g : α → β) (p : α → Bool) (f : α → α)
    (hf : ∀ x, g (f x) = g x) :
    ∀ l : List α, (updateFirst p f l).map g = l.map g
  | [] => rfl
  | x :: xs => by
    by_cases h : p x
    · simp [updateFirst, h, hf]
    · simp [updateFirst, h, updateFirst_map g p f hf xs]

theorem updateFirst_mem_of_find? (p : α → Bool) (f : α → α) :
    ∀ {l : List α} {x : α}, l.find? p = some x → f x ∈ updateFirst p f l := by
  intro l
  induction l with
  | nil => intro x h; simp at h
  | cons a l ih =>
    intro x h
    by_cases hp : p a
    · rw [List.find?_cons_of_pos _ hp] at h
      cases h
      simp [updateFirst, hp]
    · rw [List.find?_cons_of_neg _ hp] at h
      simp only [updateFirst, if_neg hp, List.mem_cons]
      exact Or.inr (ih h)

/-! Claim C7: `updateSuggestionStatus` fails with NotFound exactly when the id
is absent, leaves the store unchanged when it fails, and succeeds for every
target status when the id is present. -/

/-- C7: `updateSuggestionStatus(id, status)` fails with the not-found error
exactly when no suggestion with that id is in the store; on failure the
persisted collection is unchanged; when the id is present the call succeeds
for every target status value. -/
theorem updateSuggestionStatus_notFound_iff (q : SuggestionsQueue) (id : String)
    (st : Status) (md : UpdateMetadata) (nowIso : String) :
    ((updateSuggestionStatus q id st md nowIso =
        Except.error ("Suggestion not found: " ++ id)) ↔
      ∀ s ∈ q.suggestions, s.id ≠ id) ∧
    ((∀ s ∈ q.suggestions, s.id ≠ id) →
      updateSuggestionStatusPersisted q id st md nowIso = q) ∧
    ((∃ s ∈ q.suggestions, s.id = id) →
      ∃ q2, updateSuggestionStatus q id st md nowIso = Except.ok q2) := by
  cases h : q.suggestions.find? (fun s => s.id == id) with
  | none =>
    have hnone : ∀ s ∈ q.suggestions, s.id ≠ id := by
      intro s hs
      have := List.find?_eq_none.mp h s hs
      simpa using this
    refine ⟨⟨fun _ => hnone, fun _ => ?_⟩, fun _ => ?_, fun hex => ?_⟩
    · simp [updateSuggestionStatus, h]
    · simp [updateSuggestionStatusPersisted, updateSuggestionStatus, h]
    · obtain ⟨s, hs, hid⟩ := hex
      exact absurd hid (hnone s hs)
  | some s0 =>
    have hmem := List.mem_of_find?_eq_some h
    have hid : s0.id = id := by
      have := List.find?_some h
      simpa using this
    refine ⟨⟨fun habs => ?_, fun hall => absurd hid (hall s0 hmem)⟩,
      fun hall => absurd hid (hall s0 hmem),
      fun _ => ⟨{ suggestions := updateFirst (fun s => s.id == id) (applyUpdate st md nowIso) q.suggestions, lastUpdated := nowIso }, ?_⟩⟩
    · simp [updateSuggestionStatus, h] at habs
    · simp [updateSuggestionStatus, h]

/-- Witness for C7 at concrete inputs. -/
theorem updateSuggestionStatus_notFound_iff_witness :
    (updateSuggestionStatus exQueue "nope" Status.completed {} "T1" =
      Except.error ("Suggestion not found: " ++ "nope")) ∧
    updateSuggestionStatusPersisted exQueue "nope" Status.completed {} "T1" = exQueue ∧
    (∃ q2, updateSuggestionStatus exQueue "s1" Status.failed {} "T1" = Except.ok q2) := by
  have h1 := updateSuggestionStatus_notFound_iff exQueue "nope" Status.completed {} "T1"
  have h2 := updateSuggestionStatus_notFound_iff exQueue "s1" Status.failed {} "T1"
  exact ⟨h1.1.mpr (by decide), h1.2.1 (by decide), h2.2.2 (by decide)⟩

/-! Helper lemmas about the history partition. -/

theorem mkExcluded_coinAddress (nowMs : ℤ) (a : String) (p : ProposalHistoryEntry) :
    (mkExcluded nowMs a p).coinAddress = a := rfl

theorem filterCoinsAgainst_perm (ps : List ProposalHistoryEntry) (nowMs : ℤ) :
    ∀ addrs : List String,
      ((filterCoinsAgainst ps nowMs addrs).1 ++
        (filterCoinsAgainst ps nowMs addrs).2.map ExcludedCoin.coinAddress).Perm addrs := by
  intro addrs
  induction addrs with
  | nil => simp [filterCoinsAgainst]
  | cons a rest ih =>
    simp only [filterCoinsAgainst]
    cases h : ps.find? (fun p => jsToLowerCase p.coinAddress == jsToLowerCase a) with
    | none => simpa using ih.cons a
    | some p =>
      simp only [List.map_cons, mkExcluded_coinAddress]
      exact List.perm_middle.trans (ih.cons a)

theorem filterCoinsAgainst_excluded (ps : List ProposalHistoryEntry) (nowMs : ℤ) :
    ∀ addrs : List String, ∀ e ∈ (filterCoinsAgainst ps nowMs addrs).2,
      ∃ p ∈ ps, jsToLowerCase p.coinAddress = jsToLowerCase e.coinAddress ∧
        e.proposalId = p.proposalId ∧
        e.hoursAgo = ((nowMs - p.submittedAtMs : ℤ) : ℚ) / 3600000 := by
  intro addrs
  induction addrs with
  | nil => simp [filterCoinsAgainst]
  | cons a rest ih =>
    simp only [filterCoinsAgainst]
    cases h : ps.find? (fun p => jsToLowerCase p.coinAddress == jsToLowerCase a) with
    | none => simpa using ih
    | some p =>
      intro e he
      simp only [List.mem_cons] at he
      cases he with
      | inl he =>
        refine ⟨p, List.mem_of_find?_eq_some h, ?_, ?_, ?_⟩
        · have hp := List.find?_some h
          subst he
          simpa [mkExcluded] using hp
        · subst he; rfl
        · subst he; rfl
      | inr he => exact ih e he

theorem filterCoinsAgainst_nil_proposals (nowMs : ℤ) :
    ∀ addrs : List String, filterCoinsAgainst [] nowMs addrs = (addrs, []) := by
  intro addrs
  induction addrs with
  | nil => rfl
  | cons a rest ih => simp [filterCoinsAgainst, ih]

/-! Claim C4: `filterRecentlyProposedCoins` partitions its input. -/

/-- C4: every input address lands in exactly one of `allowed`/`excluded`, the
union of the two outputs is a permutation of the input (nothing dropped or
duplicated), and every excluded entry carries the matching proposal id and the
elapsed hours since that proposal. -/
theorem filterRecentlyProposedCoins_partition (outcome : FetchOutcome)
    (nowMs windowMs : ℤ) (addrs : List String) :
    (((filterRecentlyProposedCoins outcome nowMs addrs windowMs).1 ++
        (filterRecentlyProposedCoins outcome nowMs addrs windowMs).2.map
          ExcludedCoin.coinAddress).Perm addrs) ∧
    (∀ e ∈ (filterRecentlyProposedCoins outcome nowMs addrs windowMs).2,
      ∃ p ∈ getRecentProposals outcome nowMs windowMs,
        jsToLowerCase p.coinAddress = jsToLowerCase e.coinAddress ∧
        e.proposalId = p.proposalId ∧
        e.hoursAgo = ((nowMs - p.submittedAtMs : ℤ) : ℚ) / 3600000) :=
  ⟨filterCoinsAgainst_perm _ nowMs addrs,
   filterCoinsAgainst_excluded _ nowMs addrs⟩

/-! Claim C5: fetch failures degrade to an empty history, so the filter lets
every input address through. -/

/-- C5: when the external history query fails (network error, non-ok HTTP
response, or a GraphQL errors field), `getRecentProposals` returns the empty
list instead of propagating, and `filterRecentlyProposedCoins` then returns the
full input as `allowed` with an empty `excluded`. -/
theorem getRecentProposals_error_degrades (outcome : FetchOutcome)
    (nowMs windowMs : ℤ) (addrs : List String) (herr : outcome.isErr = true) :
    getRecentProposals outcome nowMs windowMs = [] ∧
    filterRecentlyProposedCoins outcome nowMs addrs windowMs = (addrs, []) := by
  have hnil : getRecentProposals outcome nowMs windowMs = [] := by
    cases outcome with
    | ok ps => simp [FetchOutcome.isErr] at herr
    | networkError => rfl
    | httpError st stx => rfl
    | graphqlErrors e => rfl
  refine ⟨hnil, ?_⟩
  rw [filterRecentlyProposedCoins, hnil]
  exact filterCoinsAgainst_nil_proposals nowMs addrs

/-- Witness for C5 at concrete inputs: a thrown fetch yields an empty history
and a full pass-through of the candidate list. -/
theorem getRecentProposals_error_degrades_witness :
    FetchOutcome.isErr FetchOutcome.networkError = true ∧
    getRecentProposals FetchOutcome.networkError 0 86400000 = [] ∧
    filterRecentlyProposedCoins FetchOutcome.networkError 0 ["0xAA"] 86400000 =
      (["0xAA"], []) := by
  have h := getRecentProposals_error_degrades FetchOutcome.networkError 0 86400000 ["0xAA"] rfl
  exact ⟨rfl, h.1, h.2⟩

/-! Helper lemmas about the allocation calculator. -/

theorem toFixed4_clamp_bounds (x : ℚ) :
    minAllocation ≤ toFixed4 (max minAllocation (min maxAllocation x)) ∧
    toFixed4 (max minAllocation (min maxAllocation x)) ≤ maxAllocation := by
  set c := max minAllocation (min maxAllocation x) with hc
  have h1 : minAllocation ≤ c := le_max_left _ _
  have h2 : c ≤ maxAllocation :=
    max_le (by norm_num [minAllocation, maxAllocation]) (min_le_left _ _)
  have hy1 : (1 : ℚ) ≤ c * 10000 := by
    simp only [minAllocation] at h1
    linarith
  have hy2 : c * 10000 ≤ 1000 := by
    simp only [maxAllocation] at h2
    linarith
  have hr1 : (1 : ℤ) ≤ round (c * 10000) := by
    rw [round_eq, Int.le_floor]
    push_cast
    linarith
  have hr2 : round (c * 10000) ≤ 1000 := by
    rw [round_eq]
    have hfl : ((⌊c * 10000 + 1 / 2⌋ : ℤ) : ℚ) ≤ c * 10000 + 1 / 2 := Int.floor_le _
    have hlt : ((⌊c * 10000 + 1 / 2⌋ : ℤ) : ℚ) < 1001 := by linarith
    have hlt2 : (⌊c * 10000 + 1 / 2⌋ : ℤ) < 1001 := by exact_mod_cast hlt
    omega
  have hc1 : (1 : ℚ) ≤ ((round (c * 10000) : ℤ) : ℚ) := by exact_mod_cast hr1
  have hc2 : ((round (c * 10000) : ℤ) : ℚ) ≤ 1000 := by exact_mod_cast hr2
  constructor
  · simp only [toFixed4, minAllocation]
    linarith
  · simp only [toFixed4, maxAllocation]
    linarith

theorem tdiv_10000_nonpos (a : ℤ) (h : a < 0) : Int.tdiv a 10000 ≤ 0 := by
  rcases Int.eq_negSucc_of_lt_zero h with ⟨m, rfl⟩
  show Int.tdiv (Int.negSucc m) (Int.ofNat 10000) ≤ 0
  rw [Int.tdiv]
  simp
  positivity

/-! Claim C6: the returned allocation always lies within the safety bounds. -/

/-- C6: for every treasury balance, active-proposal total and percentage, and
on every degraded path (missing treasury address, failed balance query, bad
percent), the ETH amount returned by `calculateProposalAllocation` lies within
`[minAllocation, maxAllocation]` = [0.0001, 0.1]. -/
theorem calculateProposalAllocation_bounded (treasuryAddress : Option String)
    (balanceResult : Except String ℤ) (activeProposalValue : ℤ)
    (allocationPercent : ℚ) :
    minAllocation ≤
      calculateProposalAllocation treasuryAddress balanceResult
        activeProposalValue allocationPercent ∧
    calculateProposalAllocation treasuryAddress balanceResult
        activeProposalValue allocationPercent ≤ maxAllocation := by
  have hdefault : minAllocation ≤ defaultAllocation ∧ defaultAllocation ≤ maxAllocation := by
    constructor <;> norm_num [minAllocation, defaultAllocation, maxAllocation]
  rcases treasuryAddress with _ | addr
  · exact hdefault
  rcases balanceResult with e | bal
  · exact hdefault
  by_cases hden : ((allocationPercent * 100 : ℚ).den = 1)
  · simp only [calculateProposalAllocation, if_pos hden]
    exact toFixed4_clamp_bounds _
  · simp only [calculateProposalAllocation, if_neg hden]
    exact hdefault

/-! Claim C2 is corrected: with a negative `available`, the code does not fall
back to the 0.01 default — the clamp lands on `minAllocation` = 0.0001. -/

theorem calcAlloc_of_neg_available (treasuryAddr : String) (B S : ℤ)
    (h : B - S < 0) :
    calculateProposalAllocation (some treasuryAddr) (Except.ok B) S 1 = minAllocation := by
  have hden : ((1 : ℚ) * 100).den = 1 := by norm_num
  have hnum : ((1 : ℚ) * 100).num = 100 := by norm_num
  simp only [calculateProposalAllocation, if_pos hden, hnum]
  have hneg : (B - S) * 100 < 0 := mul_neg_of_neg_of_pos h (by norm_num)
  have htd : Int.tdiv ((B - S) * 100) 10000 ≤ 0 := tdiv_10000_nonpos _ hneg
  have htdq : ((Int.tdiv ((B - S) * 100) 10000 : ℤ) : ℚ) ≤ 0 := by exact_mod_cast htd
  have hEth : ((Int.tdiv ((B - S) * 100) 10000 : ℤ) : ℚ) / 10 ^ 18 ≤ 0 :=
    div_nonpos_iff.mpr (Or.inr ⟨htdq, by norm_num⟩)
  rw [min_eq_right (hEth.trans (by norm_num [maxAllocation]))]
  rw [max_eq_left (hEth.trans (by norm_num [minAllocation]))]
  simp only [toFixed4, minAllocation]
  norm_num

/-- C2 counterexample: treasury balance 0 wei against 1 ETH of active proposals
gives a negative `available`, and the function returns `minAllocation`
(0.0001), not the hardcoded default (0.01), refuting the claim as stated. -/
theorem negative_available_default_ce :
    calculateProposalAllocation (some "0xT") (Except.ok 0) (10 ^ 18) 1 = minAllocation ∧
    calculateProposalAllocation (some "0xT") (Except.ok 0) (10 ^ 18) 1 ≠ defaultAllocation := by
  have h := calcAlloc_of_neg_available "0xT" 0 (10 ^ 18) (by norm_num)
  refine ⟨h, ?_⟩
  rw [h]
  norm_num [minAllocation, defaultAllocation]

/-- C2 amended: whenever `B - S` is negative (with `percent = 1` as at every
call site), the allocation is clamped up to `minAllocation` = 0.0001 ETH — a
non-negative amount, but not the hardcoded 0.01 default; the default is
reserved for the missing-address and thrown-error paths. -/
theorem negative_available_min_allocation (treasuryAddr : String) (B S : ℤ)
    (h : B - S < 0) :
    calculateProposalAllocation (some treasuryAddr) (Except.ok B) S 1 = minAllocation ∧
    minAllocation ≠ defaultAllocation :=
  ⟨calcAlloc_of_neg_available treasuryAddr B S h,
   by norm_num [minAllocation, defaultAllocation]⟩

/-- Witness for the amended C2 at concrete inputs. -/
theorem negative_available_min_allocation_witness :
    ((0 : ℤ) - 1 < 0) ∧
    (calculateProposalAllocation (some "0xT") (Except.ok 0) 1 1 = minAllocation ∧
      minAllocation ≠ defaultAllocation) :=
  ⟨by decide, negative_available_min_allocation "0xT" 0 1 (by decide)⟩

/-! Claim C1 is corrected: `updateSuggestionStatus(id, completed)` retains the
record; the success path of `processQueuedSuggestion` instead deletes the
record outright without ever storing a `completed` status. The `failed` side of
the claim holds. -/

/-- C1 counterexample: moving the only suggestion to `completed` via
`updateSuggestionStatus` leaves it present in `getAllSuggestions` (with status
`completed`), refuting the claim that the completed transition removes the
record within the same operation. -/
theorem completed_update_retains_record_ce :
    (getAllSuggestions
        (updateSuggestionStatusPersisted exQueue "s1" Status.completed {} "T1")).map
      (fun s => (s.id, s.status)) = [("s1", Status.completed)] := by
  rfl

/-- C1 amended: for any present id, the `completed` transition retains the
record (marked `completed`); a successful `processQueuedSuggestion` run removes
the record from `getAllSuggestions` by direct deletion, never storing a
`completed` status; a failed run rethrows and retains the record as `failed`
with the (non-empty) error message. -/
theorem completed_deletes_failed_retains (q : SuggestionsQueue) (id : String)
    (md : UpdateMetadata) (nowIso msg tx : String) (pid : Option String)
    (hmem : ∃ s ∈ q.suggestions, s.id = id) (hmsg : msg ≠ "") :
    (∃ s ∈ getAllSuggestions (updateSuggestionStatusPersisted q id Status.completed md nowIso),
        s.id = id ∧ s.status = Status.completed) ∧
    ((processQueuedSuggestion q id (SubmissionOutcome.success tx pid) nowIso).thrown = none ∧
      ∀ s ∈ getAllSuggestions
          (processQueuedSuggestion q id (SubmissionOutcome.success tx pid) nowIso).queue,
        s.id ≠ id) ∧
    ((processQueuedSuggestion q id (SubmissionOutcome.failure msg) nowIso).thrown = some msg ∧
      ∃ s ∈ getAllSuggestions
          (processQueuedSuggestion q id (SubmissionOutcome.failure msg) nowIso).queue,
        s.id = id ∧ s.status = Status.failed ∧ s.errorMessage = some msg) := by
  obtain ⟨sw, hsw, hswid⟩ := hmem
  have hfindSome : (q.suggestions.find? (fun s => s.id == id)).isSome :=
    List.find?_isSome.mpr ⟨sw, hsw, by simp [hswid]⟩
  obtain ⟨x, hfind⟩ := Option.isSome_iff_exists.mp hfindSome
  have hxid : x.id = id := by simpa using List.find?_some hfind
  -- the record list after the `processing` transition
  have hmem1 :
      applyUpdate Status.processing {} nowIso x ∈
        updateFirst (fun s => s.id == id) (applyUpdate Status.processing {} nowIso)
          q.suggestions :=
    updateFirst_mem_of_find? _ _ hfind
  have hmem1id : (applyUpdate Status.processing {} nowIso x).id = id := by
    rw [applyUpdate_id]; exact hxid
  refine ⟨?_, ⟨?_, ?_⟩, ⟨?_, ?_⟩⟩
  · -- completed retains
    refine ⟨applyUpdate Status.completed md nowIso x, ?_, ?_, applyUpdate_status _ _ _ _⟩
    · simp only [updateSuggestionStatusPersisted, updateSuggestionStatus, hfind,
        getAllSuggestions]
      exact updateFirst_mem_of_find? _ _ hfind
    · rw [applyUpdate_id]; exact hxid
  · -- success: nothing thrown
    simp [processQueuedSuggestion, updateSuggestionStatus, hfind]
  · -- success: record gone
    intro s hs
    have hlt :
        ((updateFirst (fun s => s.id == id) (applyUpdate Status.processing {} nowIso)
            q.suggestions).filter (fun s => s.id != id)).length <
          (updateFirst (fun s => s.id == id) (applyUpdate Status.processing {} nowIso)
            q.suggestions).length :=
      List.length_filter_lt_length_iff_exists.mpr
        ⟨applyUpdate Status.processing {} nowIso x, hmem1, by simp [hmem1id]⟩
    simp only [processQueuedSuggestion, updateSuggestionStatus, hfind,
      deleteSuggestion, hlt, if_true, getAllSuggestions] at hs
    have := (List.mem_filter.mp hs).2
    simpa using this
  · -- failure: rethrows the message
    have hfindSome2 :
        ((updateFirst (fun s => s.id == id) (applyUpdate Status.processing {} nowIso)
            q.suggestions).find? (fun s => s.id == id)).isSome :=
      List.find?_isSome.mpr ⟨applyUpdate Status.processing {} nowIso x, hmem1,
        by simp [hmem1id]⟩
    obtain ⟨y, hfind2⟩ := Option.isSome_iff_exists.mp hfindSome2
    simp [processQueuedSuggestion, updateSuggestionStatus, hfind, hfind2]
  · -- failure: record retained as failed with the message
    have hfindSome2 :
        ((updateFirst (fun s => s.id == id) (applyUpdate Status.processing {} nowIso)
            q.suggestions).find? (fun s => s.id == id)).isSome :=
      List.find?_isSome.mpr ⟨applyUpdate Status.processing {} nowIso x, hmem1,
        by simp [hmem1id]⟩
    obtain ⟨y, hfind2⟩ := Option.isSome_iff_exists.mp hfindSome2
    have hyid : y.id = id := by simpa using List.find?_some hfind2
    have htruthy : jsTruthyStr (UpdateMetadata.errorMessage { errorMessage := some msg }) = true := by
      simp [jsTruthyStr, hmsg]
    refine ⟨applyUpdate Status.failed { errorMessage := some msg } nowIso y, ?_, ?_,
      applyUpdate_status _ _ _ _, ?_⟩
    · simp only [processQueuedSuggestion, updateSuggestionStatus, hfind, hfind2,
        getAllSuggestions]
      exact updateFirst_mem_of_find? _ _ hfind2
    · rw [applyUpdate_id]; exact hyid
    · exact applyUpdate_errorMessage_of_truthy _ _ _ _ htruthy

/-- Witness for the amended C1 at concrete inputs. -/
theorem completed_deletes_failed_retains_witness :
    (∃ s ∈ exQueue.suggestions, s.id = "s1") ∧ ("boom" ≠ "") ∧
    ((∃ s ∈ getAllSuggestions (updateSuggestionStatusPersisted exQueue "s1" Status.completed {} "T1"),
        s.id = "s1" ∧ s.status = Status.completed) ∧
    ((processQueuedSuggestion exQueue "s1" (SubmissionOutcome.success "0xh" none) "T1").thrown = none ∧
      ∀ s ∈ getAllSuggestions
          (processQueuedSuggestion exQueue "s1" (SubmissionOutcome.success "0xh" none) "T1").queue,
        s.id ≠ "s1") ∧
    ((processQueuedSuggestion exQueue "s1" (SubmissionOutcome.failure "boom") "T1").thrown = some "boom" ∧
      ∃ s ∈ getAllSuggestions
          (processQueuedSuggestion exQueue "s1" (SubmissionOutcome.failure "boom") "T1").queue,
        s.id = "s1" ∧ s.status = Status.failed ∧ s.errorMessage = some "boom")) :=
  ⟨by decide, by decide,
   completed_deletes_failed_retains exQueue "s1" {} "T1" "boom" "0xh" none
     (by decide) (by decide)⟩

/-! Claim C3 is corrected: `processedAt` is not write-once — every transition
into `completed`/`failed` restamps it with the current time. -/

/-- C3 counterexample: a suggestion stamped `processedAt = T1` by a first
`failed` transition is restamped to `T3` by a later terminal transition after a
retry, so the stored completion timestamp changes. -/
theorem processedAt_restamped_ce :
    ((getAllSuggestions
        (updateSuggestionStatusPersisted exQueue "s1" Status.failed
          { errorMessage := some "e1" } "T1")).map (fun s => s.processedAt) =
      [some "T1"]) ∧
    ((getAllSuggestions
        (updateSuggestionStatusPersisted
          (updateSuggestionStatusPersisted
            (updateSuggestionStatusPersisted exQueue "s1" Status.failed
              { errorMessage := some "e1" } "T1")
            "s1" Status.processing {} "T2")
          "s1" Status.failed {} "T3")).map (fun s => s.processedAt) =
      [some "T3"]) ∧
    some "T3" ≠ some "T1" := by
  refine ⟨rfl, rfl, by decide⟩

/-- C3 amended: every transition into `completed` or `failed` stamps
`processedAt` with the then-current time, overwriting any previous value, while
transitions into `pending` or `processing` leave every record's `processedAt`
unchanged. -/
theorem processedAt_stamped_on_terminal (q : SuggestionsQueue) (id : String)
    (st : Status) (md : UpdateMetadata) (nowIso : String)
    (hmem : ∃ s ∈ q.suggestions, s.id = id) :
    ((st = Status.completed ∨ st = Status.failed) →
      ∃ s ∈ getAllSuggestions (updateSuggestionStatusPersisted q id st md nowIso),
        s.id = id ∧ s.processedAt = some nowIso) ∧
    ((st = Status.pending ∨ st = Status.processing) →
      (getAllSuggestions (updateSuggestionStatusPersisted q id st md nowIso)).map
          (fun s => (s.id, s.processedAt)) =
        (getAllSuggestions q).map (fun s => (s.id, s.processedAt))) := by
  obtain ⟨sw, hsw, hswid⟩ := hmem
  have hfindSome : (q.suggestions.find? (fun s => s.id == id)).isSome :=
    List.find?_isSome.mpr ⟨sw, hsw, by simp [hswid]⟩
  obtain ⟨x, hfind⟩ := Option.isSome_iff_exists.mp hfindSome
  have hxid : x.id = id := by simpa using List.find?_some hfind
  constructor
  · intro hterm
    refine ⟨applyUpdate st md nowIso x, ?_, ?_,
      applyUpdate_processedAt_terminal _ _ _ _ hterm⟩
    · simp only [updateSuggestionStatusPersisted, updateSuggestionStatus, hfind,
        getAllSuggestions]
      exact updateFirst_mem_of_find? _ _ hfind
    · rw [applyUpdate_id]; exact hxid
  · intro hnonterm
    simp only [updateSuggestionStatusPersisted, updateSuggestionStatus, hfind,
      getAllSuggestions]
    refine updateFirst_map _ _ _ ?_ q.suggestions
    intro s
    have hstatus : ¬(st = Status.completed ∨ st = Status.failed) := by
      rcases hnonterm with h | h <;> subst h <;> simp
    simp [applyUpdate, hstatus]

/-- Witness for the amended C3 at concrete inputs. -/
theorem processedAt_stamped_on_terminal_witness :
    (∃ s ∈ exQueue.suggestions, s.id = "s1") ∧
    (((Status.failed = Status.completed ∨ Status.failed = Status.failed) →
      ∃ s ∈ getAllSuggestions
          (updateSuggestionStatusPersisted exQueue "s1" Status.failed {} "T1"),
        s.id = "s1" ∧ s.processedAt = some "T1") ∧
    ((Status.failed = Status.pending ∨ Status.failed = Status.processing) →
      (getAllSuggestions
          (updateSuggestionStatusPersisted exQueue "s1" Status.failed {} "T1")).map
          (fun s => (s.id, s.processedAt)) =
        (getAllSuggestions exQueue).map (fun s => (s.id, s.processedAt)))) :=
  ⟨by decide,
   processedAt_stamped_on_terminal exQueue "s1" Status.failed {} "T1" (by decide)⟩

/-! Decimal-representation lemmas supporting id uniqueness: `Nat.repr` is
inverted by `digitsVal`, and its digits are never an underscore. -/

theorem digitChar_isDigit (m : ℕ) (h : m < 10) : (Nat.digitChar m).isDigit = true := by
  interval_cases m <;> decide

theorem charVal_digitChar (m : ℕ) (h : m < 10) : charVal (Nat.digitChar m) = m := by
  interval_cases m <;> decide

theorem foldl_digitsVal (l : List Char) :
    ∀ a : ℕ, l.foldl (fun x c => 10 * x + charVal c) a = a * 10 ^ l.length + digitsVal l := by
  induction l with
  | nil => intro a; simp [digitsVal]
  | cons c l ih =>
    intro a
    have h2 : digitsVal (c :: l) = (10 * 0 + charVal c) * 10 ^ l.length + digitsVal l := by
      simp only [digitsVal, List.foldl_cons]
      exact ih (10 * 0 + charVal c)
    simp only [List.foldl_cons, List.length_cons]
    rw [ih (10 * a + charVal c), h2]
    ring

theorem digitsVal_cons (c : Char) (l : List Char) :
    digitsVal (c :: l) = charVal c * 10 ^ l.length + digitsVal l := by
  simp only [digitsVal, List.foldl_cons]
  simpa using foldl_digitsVal l (10 * 0 + charVal c)

theorem toDigitsCore_isDigit :
    ∀ (fuel n : ℕ) (ds : List Char), (∀ c ∈ ds, c.isDigit = true) →
      ∀ c ∈ Nat.toDigitsCore 10 fuel n ds, c.isDigit = true := by
  intro fuel
  induction fuel with
  | zero => intro n ds hds c hc; exact hds c hc
  | succ f ih =>
    intro n ds hds c hc
    simp only [Nat.toDigitsCore] at hc
    by_cases h0 : n / 10 = 0
    · rw [if_pos h0] at hc
      rcases List.mem_cons.mp hc with h | h
      · subst h; exact digitChar_isDigit _ (by omega)
      · exact hds c h
    · rw [if_neg h0] at hc
      refine ih (n / 10) _ ?_ c hc
      intro c2 hc2
      rcases List.mem_cons.mp hc2 with h | h
      · subst h; exact digitChar_isDigit _ (by omega)
      · exact hds c2 h

theorem toDigitsCore_val :
    ∀ (fuel n : ℕ), n < fuel → ∀ ds : List Char,
      digitsVal (Nat.toDigitsCore 10 fuel n ds) = n * 10 ^ ds.length + digitsVal ds := by
  intro fuel
  induction fuel with
  | zero => intro n hn ds; exact absurd hn (Nat.not_lt_zero n)
  | succ f ih =>
    intro n hn ds
    simp only [Nat.toDigitsCore]
    by_cases h0 : n / 10 = 0
    · rw [if_pos h0, digitsVal_cons, charVal_digitChar _ (by omega)]
      have hn10 : n % 10 = n := by omega
      rw [hn10]
    · rw [if_neg h0]
      have h1 : n / 10 < f := by omega
      rw [ih (n / 10) h1 (Nat.digitChar (n % 10) :: ds)]
      rw [digitsVal_cons, charVal_digitChar _ (by omega)]
      simp only [List.length_cons]
      have hmod : 10 * (n / 10) + n % 10 = n := Nat.div_add_mod n 10
      calc n / 10 * 10 ^ (ds.length + 1) + (n % 10 * 10 ^ ds.length + digitsVal ds)
          = (10 * (n / 10) + n % 10) * 10 ^ ds.length + digitsVal ds := by ring
        _ = n * 10 ^ ds.length + digitsVal ds := by rw [hmod]

theorem digitsVal_toDigits (n : ℕ) : digitsVal (Nat.toDigits 10 n) = n := by
  have h := toDigitsCore_val (n + 1) n (Nat.lt_succ_self n) []
  simpa [Nat.toDigits, digitsVal] using h

theorem toDigits_ne_underscore (n : ℕ) : '_' ∉ Nat.toDigits 10 n := by
  intro hm
  have h := toDigitsCore_isDigit (n + 1) n [] (by simp) '_'
    (by simpa [Nat.toDigits] using hm)
  exact absurd h (by decide)

theorem append_underscore_inj :
    ∀ (a c b d : List Char), '_' ∉ a → '_' ∉ c →
      a ++ '_' :: b = c ++ '_' :: d → a = c ∧ b = d := by
  intro a
  induction a with
  | nil =>
    intro c b d _ hc h
    cases c with
    | nil => simpa using h
    | cons y ys =>
      exfalso
      simp only [List.nil_append, List.cons_append, List.cons.injEq] at h
      exact hc (by rw [h.1]; exact List.mem_cons_self y ys)
  | cons x xs ih =>
    intro c b d ha hc h
    cases c with
    | nil =>
      exfalso
      simp only [List.nil_append, List.cons_append, List.cons.injEq] at h
      exact ha (by rw [← h.1]; exact List.mem_cons_self x xs)
    | cons y ys =>
      simp only [List.cons_append, List.cons.injEq] at h
      obtain ⟨hxy, htl⟩ := h
      have hrec := ih ys b d (fun hm => ha (List.mem_cons_of_mem _ hm))
        (fun hm => hc (List.mem_cons_of_mem _ hm)) htl
      exact ⟨by rw [hxy, hrec.1], hrec.2⟩

theorem mkSuggestionId_inj (t1 t2 : ℕ) (r1 r2 : String)
    (h1 : '_' ∉ r1.data) (h2 : '_' ∉ r2.data)
    (h : mkSuggestionId t1 r1 = mkSuggestionId t2 r2) : t1 = t2 ∧ r1 = r2 := by
  have hd := congrArg String.data h
  have hu : ("_" : String).data = ['_'] := rfl
  have hrepr : ∀ t : ℕ, (Nat.repr t).data = Nat.toDigits 10 t := fun t => rfl
  simp only [mkSuggestionId, String.data_append, hu, hrepr, List.append_assoc,
    List.singleton_append] at hd
  have hcan := List.append_cancel_left hd
  have hinj := append_underscore_inj (Nat.toDigits 10 t1) (Nat.toDigits 10 t2)
    r1.data r2.data (toDigits_ne_underscore t1) (toDigits_ne_underscore t2) hcan
  constructor
  · have := congrArg digitsVal hinj.1
    rwa [digitsVal_toDigits, digitsVal_toDigits] at this
  · cases r1
    cases r2
    exact congrArg String.mk hinj.2

/-! Queue-construction lemmas. -/

theorem enqueueAll_map_id :
    ∀ (ops : List EnqueueOp) (q : SuggestionsQueue),
      (enqueueAll q ops).suggestions.map (fun s => s.id) =
        q.suggestions.map (fun s => s.id) ++
          ops.map (fun op => mkSuggestionId op.timeMs op.rand) := by
  intro ops
  induction ops with
  | nil => intro q; simp [enqueueAll]
  | cons op ops ih =>
    intro q
    simp only [enqueueAll]
    rw [ih]
    simp [addSuggestionToQueue]

theorem enqueueAll_pending :
    ∀ (ops : List EnqueueOp) (q : SuggestionsQueue),
      (∀ s ∈ q.suggestions, s.status = Status.pending) →
      ∀ s ∈ (enqueueAll q ops).suggestions, s.status = Status.pending := by
  intro ops
  induction ops with
  | nil => intro q hq; simpa [enqueueAll] using hq
  | cons op ops ih =>
    intro q hq
    simp only [enqueueAll]
    refine ih _ ?_
    intro s hs
    simp only [addSuggestionToQueue, List.mem_append, List.mem_singleton] at hs
    rcases hs with h | h
    · exact hq s h
    · rw [h]

/-! Claim C8 is corrected: enqueue ids are built from `Date.now()` plus a
random base-36 suffix, so two enqueues observing the same millisecond and the
same suffix collide; uniqueness holds whenever the observed pairs differ. The
FIFO half of the claim holds unconditionally. -/

/-- C8 counterexample: two distinct enqueue operations that observe the same
`Date.now()` millisecond and the same random suffix return the same id (the
store ends up with two records bearing it), refuting lifetime uniqueness as
stated. -/
theorem enqueue_id_collision_ce :
    (addSuggestionToQueue emptyQueue exInput 5 "ab" "T0").1.id =
      (addSuggestionToQueue (addSuggestionToQueue emptyQueue exInput 5 "ab" "T0").2
        exInput 5 "ab" "T1").1.id ∧
    (addSuggestionToQueue (addSuggestionToQueue emptyQueue exInput 5 "ab" "T0").2
        exInput 5 "ab" "T1").2.suggestions.length = 2 :=
  ⟨rfl, rfl⟩

/-- C8 amended: ids are pairwise distinct provided the
`(Date.now(), random-suffix)` pairs observed by distinct enqueues differ (the
suffixes, drawn from base-36, never contain an underscore); the records appear
in insertion order, and `getNextSuggestion` returns the earliest-inserted
pending record (the head of the all-pending store built by the enqueues). -/
theorem enqueue_ids_unique_fifo (ops : List EnqueueOp)
    (hpairs : ops.Pairwise (fun o1 o2 => (o1.timeMs, o1.rand) ≠ (o2.timeMs, o2.rand)))
    (hrand : ∀ op ∈ ops, '_' ∉ op.rand.data) :
    ((enqueueAll emptyQueue ops).suggestions.map (fun s => s.id)).Pairwise
        (fun i j => i ≠ j) ∧
    (enqueueAll emptyQueue ops).suggestions.map (fun s => s.id) =
      ops.map (fun op => mkSuggestionId op.timeMs op.rand) ∧
    getNextSuggestion (enqueueAll emptyQueue ops) =
      (enqueueAll emptyQueue ops).suggestions.head? ∧
    ∀ s ∈ (enqueueAll emptyQueue ops).suggestions, s.status = Status.pending := by
  have hmap := enqueueAll_map_id ops emptyQueue
  rw [show emptyQueue.suggestions = [] from rfl] at hmap
  simp only [List.map_nil, List.nil_append] at hmap
  have hpend := enqueueAll_pending ops emptyQueue (by simp [emptyQueue])
  refine ⟨?_, hmap, ?_, hpend⟩
  · rw [hmap, List.pairwise_map]
    refine hpairs.imp_of_mem ?_
    intro o1 o2 hm1 hm2 hne heq
    obtain ⟨ht, hr⟩ := mkSuggestionId_inj _ _ _ _ (hrand o1 hm1) (hrand o2 hm2) heq
    exact hne (by rw [ht, hr])
  · rw [getNextSuggestion, getPendingSuggestions, List.filter_eq_self.mpr ?_]
    intro s hs
    simp [hpend s hs]

/-- Witness for the amended C8 at concrete inputs. -/
theorem enqueue_ids_unique_fifo_witness :
    exOps.Pairwise (fun o1 o2 => (o1.timeMs, o1.rand) ≠ (o2.timeMs, o2.rand)) ∧
    (∀ op ∈ exOps, '_' ∉ op.rand.data) ∧
    (((enqueueAll emptyQueue exOps).suggestions.map (fun s => s.id)).Pairwise
        (fun i j => i ≠ j) ∧
     (enqueueAll emptyQueue exOps).suggestions.map (fun s => s.id) =
       exOps.map (fun op => mkSuggestionId op.timeMs op.rand) ∧
     getNextSuggestion (enqueueAll emptyQueue exOps) =
       (enqueueAll emptyQueue exOps).suggestions.head? ∧
     ∀ s ∈ (enqueueAll emptyQueue exOps).suggestions, s.status = Status.pending) :=
  ⟨by decide, by decide, enqueue_ids_unique_fifo exOps (by decide) (by decide)⟩

/-! Claim C9: the duplicate check short-circuits before the scoring step. -/

theorem analyzeAndPropose_scored_implies_no_recent (u : String) (t : ℚ)
    (e : AnalyzeEnv) (qq : SuggestionsQueue)
    (hai : (analyzeAndPropose u t e qq).2.1 = true) :
    wasRecentlyProposed e.fetch e.nowMs e.coin.address
      DUPLICATE_PREVENTION_WINDOW_MS = none := by
  cases hw : wasRecentlyProposed e.fetch e.nowMs e.coin.address
      DUPLICATE_PREVENTION_WINDOW_MS with
  | none => rfl
  | some rp2 => simp [analyzeAndPropose, hw] at hai

/-- C9: when `wasRecentlyProposed` finds a matching history entry for the
resolved coin address, `analyzeAndPropose` returns confidence 0,
`proposalSubmitted = false`, a reason naming the prior proposal (carried in
`recentProposal`), does not invoke the external AI scoring capability and does
not mutate the suggestions queue; and on every invocation the scoring step is
reached only when the duplicate check (performed first) found nothing. -/
theorem analyzeAndPropose_duplicate_short_circuit (username : String)
    (threshold : ℚ) (env : AnalyzeEnv) (queue : SuggestionsQueue)
    (rp : ProposalHistoryEntry)
    (h : wasRecentlyProposed env.fetch env.nowMs env.coin.address
      DUPLICATE_PREVENTION_WINDOW_MS = some rp) :
    (analyzeAndPropose username threshold env queue).1.confidenceScore = 0 ∧
    (analyzeAndPropose username threshold env queue).1.proposalSubmitted =
      ProposalSubmitted.notSubmitted ∧
    (analyzeAndPropose username threshold env queue).1.recentProposal = some rp ∧
    (analyzeAndPropose username threshold env queue).1.reason =
      "Proposal already submitted " ++
        fixed1String (((env.nowMs - rp.submittedAtMs : ℤ) : ℚ) / 3600000) ++
        "h ago. Duplicate prevention active." ∧
    (analyzeAndPropose username threshold env queue).2.1 = false ∧
    (analyzeAndPropose username threshold env queue).2.2 = queue ∧
    (∀ (u : String) (t : ℚ) (e : AnalyzeEnv) (qq : SuggestionsQueue),
      (analyzeAndPropose u t e qq).2.1 = true →
      wasRecentlyProposed e.fetch e.nowMs e.coin.address
        DUPLICATE_PREVENTION_WINDOW_MS = none) := by
  refine ⟨?_, ?_, ?_, ?_, ?_, ?_,
    fun u t e qq hai => analyzeAndPropose_scored_implies_no_recent u t e qq hai⟩ <;>
    simp [analyzeAndPropose, h]

/-- Witness for C9 at concrete inputs: the fetched history carries a proposal
for the same address submitted two hours earlier. -/
theorem analyzeAndPropose_duplicate_short_circuit_witness :
    wasRecentlyProposed exEnv.fetch exEnv.nowMs exEnv.coin.address
      DUPLICATE_PREVENTION_WINDOW_MS = some exEntry ∧
    ((analyzeAndPropose "creator" (2 / 10) exEnv exQueue).1.confidenceScore = 0 ∧
    (analyzeAndPropose "creator" (2 / 10) exEnv exQueue).1.proposalSubmitted =
      ProposalSubmitted.notSubmitted ∧
    (analyzeAndPropose "creator" (2 / 10) exEnv exQueue).1.recentProposal = some exEntry ∧
    (analyzeAndPropose "creator" (2 / 10) exEnv exQueue).1.reason =
      "Proposal already submitted " ++
        fixed1String (((exEnv.nowMs - exEntry.submittedAtMs : ℤ) : ℚ) / 3600000) ++
        "h ago. Duplicate prevention active." ∧
    (analyzeAndPropose "creator" (2 / 10) exEnv exQueue).2.1 = false ∧
    (analyzeAndPropose "creator" (2 / 10) exEnv exQueue).2.2 = exQueue ∧
    (∀ (u : String) (t : ℚ) (e : AnalyzeEnv) (qq : SuggestionsQueue),
      (analyzeAndPropose u t e qq).2.1 = true →
      wasRecentlyProposed e.fetch e.nowMs e.coin.address
        DUPLICATE_PREVENTION_WINDOW_MS = none)) :=
  ⟨by decide,
   analyzeAndPropose_duplicate_short_circuit "creator" (2 / 10) exEnv exQueue
     exEntry (by decide)⟩

/-! Claim C10: the `first: 100` query horizon bounds duplicate detection. -/

theorem processProposals_proposalIds (cutoff : ℤ) :
    ∀ l : List SubgraphProposal, ∀ e ∈ processProposals cutoff l,
      ∃ p ∈ l, e.proposalId = p.proposalId := by
  intro l
  induction l with
  | nil => simp [processProposals]
  | cons p rest ih =>
    intro e he
    simp only [processProposals] at he
    by_cases ht : p.timeCreated * 1000 < cutoff
    · rw [if_pos ht] at he
      simp at he
    · rw [if_neg ht] at he
      cases hex : extractCoinAddressFromDescription p.description with
      | none =>
        rw [hex] at he
        obtain ⟨p2, hp2, he2⟩ := ih e he
        exact ⟨p2, List.mem_cons_of_mem _ hp2, he2⟩
      | some addr =>
        rw [hex] at he
        rcases List.mem_cons.mp he with hh | hh
        · rw [hh]
          exact ⟨p, List.mem_cons_self _ _, rfl⟩
        · obtain ⟨p2, hp2, he2⟩ := ih e hh
          exact ⟨p2, List.mem_cons_of_mem _ hp2, he2⟩

/-- C10: the subgraph query asks for at most the 100 newest proposals
(`first: 100`), so a proposal beyond that horizon — here one with a proposal id
distinct from all of the 100 newest — is never part of the
`getRecentProposals` result even when its creation time lies within the window,
and consequently neither `wasRecentlyProposed` nor `filterRecentlyProposedCoins`
can report it as a duplicate, regardless of the window. -/
theorem getRecentProposals_hundred_limit (fullIndex : List SubgraphProposal)
    (nowMs windowMs : ℤ) (q : SubgraphProposal)
    (_hdrop : q ∈ fullIndex.drop subgraphFirst)
    (hid : ∀ p ∈ fullIndex.take subgraphFirst, p.proposalId ≠ q.proposalId)
    (_hwin : nowMs - windowMs ≤ q.timeCreated * 1000) :
    (∀ e ∈ getRecentProposals (FetchOutcome.ok (fetchedProposals fullIndex))
        nowMs windowMs, e.proposalId ≠ q.proposalId) ∧
    (∀ (addr : String) (m : ProposalHistoryEntry),
      wasRecentlyProposed (FetchOutcome.ok (fetchedProposals fullIndex)) nowMs
          addr windowMs = some m →
      m.proposalId ≠ q.proposalId) ∧
    (∀ addrs : List String,
      ∀ x ∈ (filterRecentlyProposedCoins (FetchOutcome.ok (fetchedProposals fullIndex))
          nowMs addrs windowMs).2,
        x.proposalId ≠ q.proposalId) := by
  have hmain : ∀ e ∈ getRecentProposals (FetchOutcome.ok (fetchedProposals fullIndex))
      nowMs windowMs, e.proposalId ≠ q.proposalId := by
    intro e he
    obtain ⟨p, hp, hpe⟩ :=
      processProposals_proposalIds (nowMs - windowMs) (fetchedProposals fullIndex) e he
    rw [hpe]
    exact hid p hp
  refine ⟨hmain, ?_, ?_⟩
  · intro addr m hm
    exact hmain m (List.mem_of_find?_eq_some hm)
  · intro addrs x hx
    obtain ⟨p, hp, _, hpid, _⟩ := filterCoinsAgainst_excluded _ nowMs addrs x hx
    rw [hpid]
    exact hmain p hp

/-- Witness for C10 at concrete inputs: an index of 101 proposals whose 101st
entry is within the window (and parseable) yet undetectable. -/
theorem getRecentProposals_hundred_limit_witness :
    exProposal ∈ exIndex.drop subgraphFirst ∧
    (∀ p ∈ exIndex.take subgraphFirst, p.proposalId ≠ exProposal.proposalId) ∧
    ((7200000 : ℤ) - DUPLICATE_PREVENTION_WINDOW_MS ≤ exProposal.timeCreated * 1000) ∧
    ((∀ e ∈ getRecentProposals (FetchOutcome.ok (fetchedProposals exIndex))
        7200000 DUPLICATE_PREVENTION_WINDOW_MS, e.proposalId ≠ exProposal.proposalId) ∧
    (∀ (addr : String) (m : ProposalHistoryEntry),
      wasRecentlyProposed (FetchOutcome.ok (fetchedProposals exIndex)) 7200000
          addr DUPLICATE_PREVENTION_WINDOW_MS = some m →
      m.proposalId ≠ exProposal.proposalId) ∧
    (∀ addrs : List String,
      ∀ x ∈ (filterRecentlyProposedCoins (FetchOutcome.ok (fetchedProposals exIndex))
          7200000 addrs DUPLICATE_PREVENTION_WINDOW_MS).2,
        x.proposalId ≠ exProposal.proposalId)) :=
  ⟨by decide, by decide, by decide,
   getRecentProposals_hundred_limit exIndex 7200000 DUPLICATE_PREVENTION_WINDOW_MS
     exProposal (by decide) (by decide) (by decide)⟩

end YayNay
